import Mathlib

/-!
Verification of the in-memory catalog library (`catalog_server/in_memory_catalog.py`).

The development shallowly embeds the library in Lean:

* `Catalog` models the `Catalog` class: an ordered mapping, given by its list of
  key/value entries (keys are unique in a Python dict; where a statement needs
  that invariant it is an explicit `Nodup` hypothesis), plus a metadata attachment.
* `BaseSeq` models the `CatalogBaseSequence` chain: each node holds an ancestor
  (the root catalog, or another view) together with its `start`/`stop` window.
  The three view kinds (keys / values / items) share this chain; they differ only
  in the projection applied by `__iter__` and `__getitem__`, embedded as the
  `iterKeys` / `iterValues` / `iterItems` and `keysGetInt` / `valuesGetInt` /
  `itemsGetInt` functions.
* Python exceptions are modelled by `Except PyErr`; the spec's taxonomy maps as:
  UnsupportedSlice = `notImplementedError`, IndexOutOfRange = `indexError`,
  KeyNotFound = `keyError`.  The CPython built-in `len()` raises `ValueError`
  when `__len__` returns a negative number; `lenB` embeds that check.
* Python machine-level details that matter here: `itertools.islice(it, a, b)`
  yields the elements with positions in `[a, b)` and rejects negative bounds
  with `ValueError`; `str.split()` lower-cases nothing and splits on whitespace
  runs, dropping empty tokens (embedded as `pySplitAux`); `s.lower()` is
  embedded as `Char.toLower` applied characterwise.
-/

/-- Kinds of Python exceptions the embedded code can raise. -/
inductive PyErr : Type where
  | keyError
  | indexError
  | valueError
  | typeError
  | notImplementedError
  | stopIteration
deriving DecidableEq, Repr

/-- A metadata value: an arbitrarily nested structure of mappings, sequences and
strings; `other` stands for any other (opaque, non-iterable) leaf. -/
inductive MetaVal : Type where
  | str : String → MetaVal
  | map : List (String × MetaVal) → MetaVal
  | seq : List MetaVal → MetaVal
  | other : MetaVal

mutual

/-- Embedding of `walk_string_values(tree)` (the `node is None` entry point):
walk every entry of the mapping in order. -/
def walk_string_values : List (String × MetaVal) → List String
  | [] => []
  | (_, v) :: rest => walk_string_values_node v ++ walk_string_values rest

/-- Embedding of the `node`-given branch of `walk_string_values`: a string is
yielded; a mapping is walked recursively; any other iterable yields only its
elements that are strings (no recursion); other leaves yield nothing. -/
def walk_string_values_node : MetaVal → List String
  | MetaVal.str s => [s]
  | MetaVal.map es => walk_string_values es
  | MetaVal.seq items =>
      items.filterMap (fun it =>
        match it with
        | MetaVal.str s => some s
        | _ => none)
  | MetaVal.other => []

end

/-- Helper for the embedding of Python `str.split()`: split a character list on
whitespace runs, dropping empty tokens.  `acc` holds the (reversed) current token. -/
def pySplitAux : List Char → List Char → List (List Char)
  | [], acc => if acc = [] then [] else [acc.reverse]
  | c :: rest, acc =>
    if c.isWhitespace then
      if acc = [] then pySplitAux rest []
      else acc.reverse :: pySplitAux rest []
    else pySplitAux rest (c :: acc)

/-- Embedding of Python `s.lower().split()`: lower-case characterwise, then
split on whitespace. -/
def pyLowerWords (s : String) : List String :=
  (pySplitAux (s.data.map Char.toLower) []).map (fun cs => String.mk cs)

/-- The `Catalog` class: the backing ordered mapping (its key/value entries in
iteration order) and the metadata attachment (`metadata or {}`). -/
structure Catalog (V : Type) where
  entries : List (String × V)
  metadata : List (String × MetaVal)

/-- Embedding of `Catalog._keys_slice(start, stop)`:
`itertools.islice(mapping.keys(), start, stop)`, the keys with positions in
the half-open window. -/
def Catalog.keys_slice {V : Type} (c : Catalog V) (start : Nat) (stop : Option Nat) : List String :=
  match stop with
  | none => (c.entries.map Prod.fst).drop start
  | some stp => ((c.entries.map Prod.fst).take stp).drop start

/-- Embedding of `Catalog._items_slice(start, stop)`:
`(key, mapping[key]) for key in keys_slice(start, stop)`.  The dict lookup
`mapping[key]` is `List.lookup`; the `none` case (Python `KeyError`) is
unreachable because every such key comes from the mapping itself. -/
def Catalog.items_slice {V : Type} (c : Catalog V) (start : Nat) (stop : Option Nat) :
    List (String × V) :=
  (c.keys_slice start stop).filterMap
    (fun k => (List.lookup k c.entries).map (fun v => (k, v)))

/-- Embedding of `Catalog._item_by_index(index)`: raise `IndexError` when
`index >= len(self)`; otherwise advance a key iterator to `index`
(`islice` rejects a negative position with `ValueError`) and look the key up.
`stopIteration`/`keyError` are the (unreachable) failure modes of `next` and of
the dict lookup. -/
def catItemByIndex {V : Type} (entries : List (String × V)) (i : Int) :
    Except PyErr (String × V) :=
  if (entries.length : Int) ≤ i then Except.error PyErr.indexError
  else if i < 0 then Except.error PyErr.valueError
  else
    match (entries.map Prod.fst).get? i.toNat with
    | some k =>
      match List.lookup k entries with
      | some v => Except.ok (k, v)
      | none => Except.error PyErr.keyError
    | none => Except.error PyErr.stopIteration

/-- `Catalog._item_by_index` on a catalog value. -/
def Catalog.item_by_index {V : Type} (c : Catalog V) (i : Int) : Except PyErr (String × V) :=
  catItemByIndex c.entries i

/-- Embedding of `_slice_to_interval(index)`: a negative `start` or `stop`
raises `NotImplementedError`; an absent `start` becomes 0; `stop` is passed
through unchanged. -/
def _slice_to_interval (start stop : Option Int) : Except PyErr (Nat × Option Nat) :=
  match start with
  | none =>
    match stop with
    | some w =>
      if w < 0 then Except.error PyErr.notImplementedError
      else Except.ok (0, some w.toNat)
    | none => Except.ok (0, none)
  | some v =>
    if v < 0 then Except.error PyErr.notImplementedError
    else
      match stop with
      | some w =>
        if w < 0 then Except.error PyErr.notImplementedError
        else Except.ok (v.toNat, some w.toNat)
      | none => Except.ok (v.toNat, none)

/-- Embedding of `_compose_intervals(a, b)` on optional non-negative
components.  The result is `none` exactly on the inputs where the Python code
raises `TypeError`: when `b_stop` is present the code evaluates
`b_stop + a_start`, adding `None` if `a_start` is absent. -/
def _compose_intervals (a b : Option Nat × Option Nat) : Option (Nat × Option Nat) :=
  let start : Nat :=
    match a.1, b.1 with
    | none, none => 0
    | none, some bs => bs
    | some as_, none => as_
    | some as_, some bs => as_ + bs
  match a.2, b.2 with
  | none, none => some (start, none)
  | none, some bstop =>
    match a.1 with
    | none => none
    | some astart => some (start, some (bstop + astart))
  | some astop, none => some (start, some astop)
  | some astop, some bstop =>
    match a.1 with
    | none => none
    | some astart => some (start, some (min astop (bstop + astart)))

/-- `_compose_intervals` as the views actually call it: a view's own `_start`
is always an `int` (the constructor runs `int(start or 0)`) and the incoming
`start` always comes from `_slice_to_interval`, so both start components are
present and the `TypeError` branch is unreachable. -/
def _compose_intervals_nn (aStart : Nat) (aStop : Option Nat) (bStart : Nat)
    (bStop : Option Nat) : Nat × Option Nat :=
  (aStart + bStart,
    match aStop, bStop with
    | none, none => none
    | none, some bs => some (bs + aStart)
    | some as_, none => some as_
    | some as_, some bs => some (min as_ (bs + aStart)))

/-- Coherence of the two renderings of `_compose_intervals`: on inputs with
both start components present they agree. -/
theorem compose_intervals_coh (a bs : Nat) (q t : Option Nat) :
    _compose_intervals (some a, q) (some bs, t) = some (_compose_intervals_nn a q bs t) := by
  cases q <;> cases t <;> rfl

/-- The `CatalogBaseSequence` chain shared by the keys/values/items views:
`base c start stop` is a view whose ancestor is the root catalog `c`;
`nest anc start stop` is a view whose ancestor is another view. -/
inductive BaseSeq (V : Type) : Type where
  | base : Catalog V → Nat → Option Nat → BaseSeq V
  | nest : BaseSeq V → Nat → Option Nat → BaseSeq V

/-- Embedding of `CatalogBaseSequence.__len__` given the ancestor's length:
`len_ = len(ancestor) - start` (a possibly negative Python int), clamped to
`stop - start` when `stop` is present and smaller. -/
def seqLenInt (ancLen : Int) (start : Nat) (stop : Option Nat) : Int :=
  match stop with
  | some stp =>
    if ancLen - start > (stp : Int) - start then (stp : Int) - start
    else ancLen - start
  | none => ancLen - start

/-- The built-in `len(view)`: compute `__len__` along the chain; the CPython
`len()` built-in raises `ValueError` whenever a `__len__` result is negative
(including the inner `len(self._ancestor)` call). -/
def BaseSeq.lenB {V : Type} : BaseSeq V → Except PyErr Nat
  | BaseSeq.base c s t =>
    if seqLenInt c.entries.length s t < 0 then Except.error PyErr.valueError
    else Except.ok (seqLenInt c.entries.length s t).toNat
  | BaseSeq.nest anc s t =>
    match anc.lenB with
    | Except.error e => Except.error e
    | Except.ok al =>
      if seqLenInt al s t < 0 then Except.error PyErr.valueError
      else Except.ok (seqLenInt al s t).toNat

/-- Embedding of `CatalogBaseSequence._item_by_index(index)`: recurse into the
ancestor at `index + self._start`; the root catalog performs the only bounds
check. -/
def BaseSeq.itemByIndex {V : Type} : BaseSeq V → Int → Except PyErr (String × V)
  | BaseSeq.base c ws _, i => catItemByIndex c.entries (i + ws)
  | BaseSeq.nest anc ws _, i => anc.itemByIndex (i + ws)

/-- Embedding of `CatalogBaseSequence._keys_slice`: compose the view's own
window with the requested one and recurse into the ancestor. -/
def BaseSeq.keys_slice {V : Type} : BaseSeq V → Nat → Option Nat → List String
  | BaseSeq.base c ws wt, s, t =>
    let a := _compose_intervals_nn ws wt s t
    c.keys_slice a.1 a.2
  | BaseSeq.nest anc ws wt, s, t =>
    let a := _compose_intervals_nn ws wt s t
    anc.keys_slice a.1 a.2

/-- Embedding of `CatalogBaseSequence._items_slice`: compose the view's own
window with the requested one and recurse into the ancestor. -/
def BaseSeq.items_slice {V : Type} : BaseSeq V → Nat → Option Nat → List (String × V)
  | BaseSeq.base c ws wt, s, t =>
    let a := _compose_intervals_nn ws wt s t
    c.items_slice a.1 a.2
  | BaseSeq.nest anc ws wt, s, t =>
    let a := _compose_intervals_nn ws wt s t
    anc.items_slice a.1 a.2

/-- `CatalogKeysSequence.__iter__`: ask the ancestor for the keys slice of the
view's own window. -/
def BaseSeq.iterKeys {V : Type} : BaseSeq V → List String
  | BaseSeq.base c ws wt => c.keys_slice ws wt
  | BaseSeq.nest anc ws wt => anc.keys_slice ws wt

/-- `CatalogItemsSequence.__iter__`: ask the ancestor for the items slice of
the view's own window. -/
def BaseSeq.iterItems {V : Type} : BaseSeq V → List (String × V)
  | BaseSeq.base c ws wt => c.items_slice ws wt
  | BaseSeq.nest anc ws wt => anc.items_slice ws wt

/-- `CatalogValuesSequence.__iter__`: the value component of each pair of the
ancestor's items slice. -/
def BaseSeq.iterValues {V : Type} (v : BaseSeq V) : List V :=
  (BaseSeq.iterItems v).map Prod.snd

/-- `CatalogItemsSequence.__getitem__` with an integer index: the pair itself. -/
def itemsGetInt {V : Type} (v : BaseSeq V) (i : Int) : Except PyErr (String × V) :=
  v.itemByIndex i

/-- `CatalogKeysSequence.__getitem__` with an integer index: the key only. -/
def keysGetInt {V : Type} (v : BaseSeq V) (i : Int) : Except PyErr String :=
  (v.itemByIndex i).map Prod.fst

/-- `CatalogValuesSequence.__getitem__` with an integer index: the value only. -/
def valuesGetInt {V : Type} (v : BaseSeq V) (i : Int) : Except PyErr V :=
  (v.itemByIndex i).map Prod.snd

/-- `CatalogBaseSequence.__getitem__` with a slice: convert the slice and wrap
`self` in a new view of the same kind. -/
def BaseSeq.getitemSlice {V : Type} (v : BaseSeq V) (start stop : Option Int) :
    Except PyErr (BaseSeq V) :=
  (_slice_to_interval start stop).map (fun p => BaseSeq.nest v p.1 p.2)

/-- `Catalog.keys_indexer`: a fresh unbounded keys view rooted at the catalog. -/
def Catalog.keys_indexer {V : Type} (c : Catalog V) : BaseSeq V :=
  BaseSeq.base c 0 none

/-- `Catalog.items_indexer`: a fresh unbounded items view rooted at the catalog. -/
def Catalog.items_indexer {V : Type} (c : Catalog V) : BaseSeq V :=
  BaseSeq.base c 0 none

/-- `Catalog.values_indexer`: a fresh unbounded values view rooted at the catalog. -/
def Catalog.values_indexer {V : Type} (c : Catalog V) : BaseSeq V :=
  BaseSeq.base c 0 none

/-- The sum of the `start` offsets along a view chain. -/
def BaseSeq.accStart {V : Type} : BaseSeq V → Nat
  | BaseSeq.base _ ws _ => ws
  | BaseSeq.nest anc ws _ => ws + anc.accStart

/-- The entries of the root catalog of a view chain. -/
def BaseSeq.rootEntries {V : Type} : BaseSeq V → List (String × V)
  | BaseSeq.base c _ _ => c.entries
  | BaseSeq.nest anc _ _ => anc.rootEntries

/-- The alternative slicing implementation the spec allows ("MAY instead
eagerly compose"), written from the spec's words: rebind the new view directly
to `self`'s ancestor with the composed window, instead of wrapping `self`. -/
def composedSlice {V : Type} : BaseSeq V → Nat → Option Nat → BaseSeq V
  | BaseSeq.base c p q, s, t =>
    let a := _compose_intervals_nn p q s t
    BaseSeq.base c a.1 a.2
  | BaseSeq.nest anc p q, s, t =>
    let a := _compose_intervals_nn p q s t
    BaseSeq.nest anc a.1 a.2

/-- Python dict insertion `m[k] = v` on an entries list: overwrite in place if
the key is present, else append. -/
def dictInsert {V : Type} (m : List (String × V)) (k : String) (v : V) : List (String × V) :=
  if m.any (fun e => e.1 == k) then
    m.map (fun e => if e.1 == k then (k, v) else e)
  else m ++ [(k, v)]

/-- `catalog.items()` through the `collections.abc.Mapping` mix-in: iterate the
keys and look each one up (`(key, self[key])`). -/
def Catalog.pyItems {V : Type} (c : Catalog V) : List (String × V) :=
  c.entries.filterMap (fun e => (List.lookup e.1 c.entries).map (fun v => (e.1, v)))

/-- The per-entry test of `full_text_search`:
`not words.isdisjoint(query_words)`, i.e. some word of the entry's metadata
word collection is a query word. -/
def matchesQuery (queryWords : List String) (metadata : List (String × MetaVal)) : Bool :=
  ((walk_string_values metadata).flatMap pyLowerWords).any (fun w => queryWords.contains w)

/-- Embedding of `full_text_search(query, catalog)`: split the query text into
words, keep each entry whose metadata word collection meets the query words,
and return a fresh catalog (`type(catalog)(matches)`, metadata empty).  The
value type carries its `metadata` through `md`. -/
def full_text_search {V : Type} (md : V → List (String × MetaVal)) (qtext : String)
    (c : Catalog V) : Catalog V :=
  let queryWords := pyLowerWords qtext
  let kept :=
    c.pyItems.foldl
      (fun m e => if matchesQuery queryWords (md e.2) then dictInsert m e.1 e.2 else m) []
  { entries := kept, metadata := [] }

/-- The `search` call as a state transformer: the result of `full_text_search`
together with the receiver after the call.  The body of `full_text_search`
only reads the receiver (it writes only its local `matches` dict), so the
after-state is the receiver itself. -/
def Catalog.searchText {V : Type} (md : V → List (String × MetaVal)) (qtext : String)
    (c : Catalog V) : Catalog V × Catalog V :=
  (full_text_search md qtext c, c)

/-- A concrete three-entry catalog used by witnesses and counterexamples. -/
def exCat : Catalog Nat :=
  { entries := [("a", 1), ("b", 2), ("c", 3)], metadata := [] }

/-- A concrete catalog whose values carry metadata, for the search witnesses. -/
def exMetaCat : Catalog (List (String × MetaVal)) :=
  { entries :=
      [("a", [("fruit", MetaVal.str "apple")]),
       ("b", [("fruit", MetaVal.str "banana")])],
    metadata := [] }

/-- A concrete catalog whose single value has no string leaves at all. -/
def exNoStrings : Catalog Nat :=
  { entries := [("x", 7)], metadata := [] }

/-! ## Shared lemmas -/

/-- A key drawn from a mapping's key list can always be looked up. -/
theorem lookup_isSome_of_mem_keys {V : Type} (l : List (String × V)) (k : String)
    (h : k ∈ l.map Prod.fst) : ∃ v, List.lookup k l = some v := by
  induction l with
  | nil => simp at h
  | cons e t ih =>
    obtain ⟨k0, v0⟩ := e
    by_cases hk : k = k0
    · exact ⟨v0, by simp [List.lookup_cons, hk]⟩
    · have hmem : k ∈ t.map Prod.fst := by
        simp only [List.map_cons, List.mem_cons] at h
        exact h.resolve_left hk
      obtain ⟨v, hv⟩ := ih hmem
      have hbeq : (k == k0) = false := beq_eq_false_iff_ne.mpr hk
      exact ⟨v, by simp [List.lookup_cons, hbeq, hv]⟩

/-- Under the dict invariant (unique keys), looking up an entry's own key gives
its own value. -/
theorem lookup_self {V : Type} (l : List (String × V)) (hl : (l.map Prod.fst).Nodup) :
    ∀ e ∈ l, List.lookup e.1 l = some e.2 := by
  induction l with
  | nil => intro e he; simp at he
  | cons a t ih =>
    obtain ⟨k0, v0⟩ := a
    simp only [List.map_cons, List.nodup_cons] at hl
    intro e he
    rcases List.mem_cons.mp he with he0 | het
    · subst he0; simp [List.lookup_cons]
    · have hne : e.1 ≠ k0 := by
        intro hcontra
        exact hl.1 (hcontra ▸ List.mem_map_of_mem Prod.fst het)
      have hbeq : (e.1 == k0) = false := beq_eq_false_iff_ne.mpr hne
      simp [List.lookup_cons, hbeq, ih hl.2 e het]

/-- `filterMap` with a function that maps every member to itself is the identity. -/
theorem filterMap_id_of {α : Type} (l : List α) (f : α → Option α)
    (h : ∀ a ∈ l, f a = some a) : l.filterMap f = l := by
  induction l with
  | nil => rfl
  | cons a t ih =>
    rw [List.filterMap_cons, h a (List.mem_cons_self a t),
      ih (fun b hb => h b (List.mem_cons_of_mem a hb))]

/-- Under the dict invariant, the `Mapping.items()` mix-in yields exactly the
backing entries. -/
theorem pyItems_eq_entries {V : Type} (c : Catalog V)
    (h : (c.entries.map Prod.fst).Nodup) : c.pyItems = c.entries := by
  unfold Catalog.pyItems
  exact filterMap_id_of _ _ (fun e he => by simp [lookup_self c.entries h e he])

/-- Inserting a fresh key into a dict appends the entry. -/
theorem dictInsert_append {V : Type} (m : List (String × V)) (k : String) (v : V)
    (h : k ∉ m.map Prod.fst) : dictInsert m k v = m ++ [(k, v)] := by
  have hany : m.any (fun e => e.1 == k) = false := by
    rw [List.any_eq_false]
    intro e he
    have hne : e.1 ≠ k := fun hc => h (hc ▸ List.mem_map_of_mem Prod.fst he)
    simp [hne]
  unfold dictInsert
  rw [hany]
  simp

/-- A conditional-insert fold over entries with pairwise-distinct keys builds
exactly the filtered entry list. -/
theorem foldl_dictInsert_filter {V : Type} (p : String × V → Bool) :
    ∀ (l acc : List (String × V)), (acc.map Prod.fst ++ l.map Prod.fst).Nodup →
      l.foldl (fun m e => if p e then dictInsert m e.1 e.2 else m) acc = acc ++ l.filter p := by
  intro l
  induction l with
  | nil => intro acc _; simp
  | cons a t ih =>
    intro acc hnd
    obtain ⟨k0, v0⟩ := a
    have hk0 : k0 ∉ acc.map Prod.fst := by
      have hdisj := (List.nodup_append.mp hnd).2.2
      intro hmem
      exact hdisj hmem (by simp)
    have hnd' : ((acc ++ [(k0, v0)]).map Prod.fst ++ t.map Prod.fst).Nodup := by
      simpa [List.append_assoc] using hnd
    have hndt : (acc.map Prod.fst ++ t.map Prod.fst).Nodup := by
      refine List.Sublist.nodup ?_ hnd
      refine List.Sublist.append (List.Sublist.refl _) ?_
      simp
    by_cases hp : p (k0, v0) = true
    · simp only [List.foldl_cons]
      rw [if_pos hp, dictInsert_append acc k0 v0 hk0, ih (acc ++ [(k0, v0)]) hnd']
      simp [hp]
    · simp only [List.foldl_cons]
      rw [if_neg hp, ih acc hndt]
      simp [hp]

/-- `Char.toLower` fixes whitespace characters. -/
theorem toLower_whitespace (c : Char) (h : c.isWhitespace = true) : c.toLower = c := by
  simp only [Char.isWhitespace, Bool.or_eq_true, decide_eq_true_eq] at h
  rcases h with ((h | h) | h) | h <;> subst h <;> decide

/-- Splitting an all-whitespace character list yields no tokens. -/
theorem pySplitAux_whitespace :
    ∀ cs : List Char, (∀ c ∈ cs, c.isWhitespace = true) → pySplitAux cs [] = [] := by
  intro cs
  induction cs with
  | nil => intro _; rfl
  | cons c t ih =>
    intro h
    have hc := h c (List.mem_cons_self c t)
    simp only [pySplitAux, hc, if_true, if_pos rfl]
    exact ih (fun d hd => h d (List.mem_cons_of_mem c hd))

/-- An empty or all-whitespace string has no words. -/
theorem pyLowerWords_whitespace (s : String) (h : s.data.all Char.isWhitespace = true) :
    pyLowerWords s = [] := by
  unfold pyLowerWords
  rw [List.all_eq_true] at h
  rw [pySplitAux_whitespace]
  · rfl
  · intro c hc
    rw [List.mem_map] at hc
    obtain ⟨c0, hc0, rfl⟩ := hc
    rw [toLower_whitespace c0 (h c0 hc0)]
    exact h c0 hc0

/-- No metadata word collection meets an empty query word set. -/
theorem matchesQuery_nil (metadata : List (String × MetaVal)) :
    matchesQuery [] metadata = false := by
  unfold matchesQuery
  rw [List.any_eq_false]
  intro w _
  simp

/-- A fold whose step never changes the accumulator is constant. -/
theorem foldl_skip {α β : Type} (l : List α) (acc : β) :
    l.foldl (fun m (_ : α) => m) acc = acc := by
  induction l generalizing acc with
  | nil => rfl
  | cons a t ih => exact ih acc

/-! ## Claim theorems -/

/-- C5 counterexample: at `a = (None, None)`, `b = (None, 1)` (all present
components non-negative) the claim predicts the result `(0, 1)` — start
`a_start + b_start` with absent starts as 0, stop `b_stop + a_start` — but the
code evaluates `1 + None` and raises `TypeError` (modelled as `none`). -/
theorem compose_intervals_cex :
    _compose_intervals (none, none) (none, some 1) ≠ some (0, some 1) := by
  decide

/-- C5 (amended): for all intervals with non-negative present components,
provided `a_start` is present whenever `b_stop` is present (otherwise the code
raises `TypeError`), `compose(a, b)` returns `start = a_start + b_start`
(absent starts as 0) and the claimed case analysis for `stop`. -/
theorem compose_intervals_spec (a b : Option Nat × Option Nat)
    (h : b.2.isSome → a.1.isSome) :
    _compose_intervals a b =
      some (a.1.getD 0 + b.1.getD 0,
        match a.2, b.2 with
        | none, none => none
        | none, some bs => some (bs + a.1.getD 0)
        | some as_, none => some as_
        | some as_, some bs => some (min as_ (bs + a.1.getD 0))) := by
  obtain ⟨a1, a2⟩ := a
  obtain ⟨b1, b2⟩ := b
  cases a1 <;> cases b1 <;> cases a2 <;> cases b2 <;> simp_all [_compose_intervals]

/-- Witness for `compose_intervals_spec` at `a = (2, 10)`, `b = (3, 5)`. -/
theorem compose_intervals_spec_witness :
    (((some 5 : Option Nat).isSome → (some 2 : Option Nat).isSome)) ∧
    _compose_intervals (some 2, some 10) (some 3, some 5) = some (2 + 3, some (min 10 (5 + 2))) := by
  refine ⟨fun _ => rfl, ?_⟩
  have h := compose_intervals_spec (some 2, some 10) (some 3, some 5) (fun _ => rfl)
  simpa using h

/-- C6: `_slice_to_interval` (and hence slicing any lazy view, which feeds the
request through it) fails with `NotImplementedError` (UnsupportedSlice) iff the
request's `start` or `stop` is negative; otherwise `start` defaults to 0 when
absent and `stop` passes through, absent meaning unbounded. -/
theorem slice_to_interval_spec {V : Type} (st sp : Option Int) (v : BaseSeq V) :
    _slice_to_interval st sp =
      (if st.getD 0 < 0 ∨ sp.getD 0 < 0 then Except.error PyErr.notImplementedError
       else Except.ok ((st.getD 0).toNat, sp.map Int.toNat)) ∧
    BaseSeq.getitemSlice v st sp =
      (if st.getD 0 < 0 ∨ sp.getD 0 < 0 then Except.error PyErr.notImplementedError
       else Except.ok (BaseSeq.nest v (st.getD 0).toNat (sp.map Int.toNat))) := by
  have h1 : _slice_to_interval st sp =
      (if st.getD 0 < 0 ∨ sp.getD 0 < 0 then Except.error PyErr.notImplementedError
       else Except.ok ((st.getD 0).toNat, sp.map Int.toNat)) := by
    cases st <;> cases sp <;>
      simp only [_slice_to_interval, Option.getD, Option.map] <;>
      split_ifs <;> simp_all <;> omega
  refine ⟨h1, ?_⟩
  rw [BaseSeq.getitemSlice, h1]
  split_ifs <;> rfl

/-- C7: `Catalog._item_by_index(i)` for non-negative `i` fails with
`IndexError` (IndexOutOfRange) when `i ≥ len(C)`, and otherwise returns the
pair of the i-th key in iteration order and that key's looked-up value. -/
theorem item_by_index_spec {V : Type} (c : Catalog V) (i : Nat) :
    (c.entries.length ≤ i → c.item_by_index i = Except.error PyErr.indexError) ∧
    (i < c.entries.length →
      ∃ k v, (c.entries.map Prod.fst).get? i = some k ∧ List.lookup k c.entries = some v ∧
        c.item_by_index i = Except.ok (k, v)) := by
  constructor
  · intro h
    unfold Catalog.item_by_index catItemByIndex
    rw [if_pos (by exact_mod_cast h)]
  · intro h
    have hget : ∃ k, (c.entries.map Prod.fst).get? i = some k :=
      ⟨(c.entries.map Prod.fst).get ⟨i, by simpa using h⟩, List.get?_eq_get _⟩
    obtain ⟨k, hk⟩ := hget
    have hkmem : k ∈ c.entries.map Prod.fst := List.get?_mem hk
    obtain ⟨v, hv⟩ := lookup_isSome_of_mem_keys c.entries k hkmem
    refine ⟨k, v, hk, hv, ?_⟩
    unfold Catalog.item_by_index catItemByIndex
    rw [if_neg (by omega), if_neg (by omega)]
    have htn : ((i : Int)).toNat = i := rfl
    rw [htn, hk]
    simp [hv]

/-- Witness for `item_by_index_spec` at the three-entry catalog and `i = 1`. -/
theorem item_by_index_spec_witness :
    1 < exCat.entries.length ∧
    (∃ k v, (exCat.entries.map Prod.fst).get? 1 = some k ∧
      List.lookup k exCat.entries = some v ∧ exCat.item_by_index 1 = Except.ok (k, v)) :=
  ⟨by decide, (item_by_index_spec exCat 1).2 (by decide)⟩

/-- C8: a `search` call never mutates the receiver — the receiver's entries
(key set, values, iteration order) and metadata after the call are those
before it — and the returned collection is a freshly constructed catalog
(its metadata is reset to empty, independent of the receiver's).  Object
identity itself is outside the embedding; freshness is reflected by the
reset metadata of the constructed result. -/
theorem search_frame {V : Type} (md : V → List (String × MetaVal)) (qtext : String)
    (c : Catalog V) :
    (Catalog.searchText md qtext c).2.entries = c.entries ∧
    (Catalog.searchText md qtext c).2.metadata = c.metadata ∧
    (Catalog.searchText md qtext c).1.metadata = [] :=
  ⟨rfl, rfl, rfl⟩

/-- C1: chained items slicing composes: `C.items_indexer[p:q][r:s]` yields,
element for element, the same (key, value) list as the single slice
`C.items_indexer[p+r : min(q, p+s)]`, for in-range bounds. -/
theorem items_slice_composition {V : Type} (c : Catalog V) (p q r s : Nat)
    (h1 : p ≤ q) (h2 : q ≤ c.entries.length) (h3 : r ≤ s) (h4 : s ≤ q - p) :
    BaseSeq.iterItems (BaseSeq.nest (BaseSeq.nest c.items_indexer p (some q)) r (some s)) =
    BaseSeq.iterItems (BaseSeq.nest c.items_indexer (p + r) (some (min q (p + s)))) := by
  simp only [BaseSeq.iterItems, BaseSeq.items_slice, Catalog.items_indexer,
    _compose_intervals_nn, Nat.add_zero, Nat.zero_add]
  rw [Nat.add_comm s p]

/-- Witness for `items_slice_composition` at the three-entry catalog with
`p = 1`, `q = 3`, `r = 0`, `s = 1`. -/
theorem items_slice_composition_witness :
    (1 ≤ 3 ∧ 3 ≤ exCat.entries.length ∧ 0 ≤ 1 ∧ 1 ≤ 3 - 1) ∧
    BaseSeq.iterItems (BaseSeq.nest (BaseSeq.nest exCat.items_indexer 1 (some 3)) 0 (some 1)) =
    BaseSeq.iterItems (BaseSeq.nest exCat.items_indexer (1 + 0) (some (min 3 (1 + 1)))) :=
  ⟨⟨by decide, by decide, by decide, by decide⟩,
    items_slice_composition exCat 1 3 0 1 (by decide) (by decide) (by decide) (by decide)⟩

/-- C2 counterexample: for the three-entry catalog with `a = 5 ≤ b = 7`, the
claim predicts `len = max(0, min(3, 7) - 5) = 0`, but `__len__` computes the
negative value `-2` and the `len()` built-in therefore raises `ValueError`. -/
theorem keys_indexer_len_cex :
    BaseSeq.lenB (BaseSeq.nest exCat.keys_indexer 5 (some 7)) = Except.error PyErr.valueError ∧
    seqLenInt exCat.entries.length 5 (some 7) = -2 := by
  constructor <;> rfl

/-- C2 (amended): `len(C.keys_indexer[a:b])` equals `min(len(C), b) - a`
(unbounded `b` treated as `len(C)`) whenever `a ≤ min(len(C), b)`; otherwise
`__len__` computes that same, now negative, value and `len()` raises
`ValueError` instead of returning 0. -/
theorem keys_indexer_len_spec {V : Type} (c : Catalog V) (a : Nat) (ob : Option Nat) :
    BaseSeq.lenB (BaseSeq.nest c.keys_indexer a ob) =
      (if a ≤ min c.entries.length (ob.getD c.entries.length)
       then Except.ok (min c.entries.length (ob.getD c.entries.length) - a)
       else Except.error PyErr.valueError) := by
  have hbase : BaseSeq.lenB (Catalog.keys_indexer c) = Except.ok c.entries.length := by
    rw [Catalog.keys_indexer, BaseSeq.lenB, if_neg (by simp [seqLenInt])]
    simp [seqLenInt]
  rw [BaseSeq.lenB, hbase]
  rcases ob with _ | b <;>
    simp only [seqLenInt, Option.getD, min_self] <;>
    split_ifs <;>
    first
      | rfl
      | (exfalso; omega)
      | (simp only [Except.ok.injEq]; omega)

/-- C3 counterexample: over the three-entry catalog, the items view `[0:1]`
has `len() = 1`, yet indexing it at 2 succeeds and returns the root's third
entry — no bounds check against the view's own length happens. -/
theorem getitem_bounds_cex :
    BaseSeq.lenB (BaseSeq.nest exCat.items_indexer 0 (some 1)) = Except.ok 1 ∧
    itemsGetInt (BaseSeq.nest exCat.items_indexer 0 (some 1)) 2 = Except.ok ("c", 3) := by
  constructor <;> rfl

/-- C3 (amended): integer indexing a lazy view performs no bounds check
against the view's own `len()`: each level delegates to its ancestor at
`i + start`, so `view[i]` is the kind-specific projection of the root
catalog's `item_by_index` at `i` plus the accumulated starts — bounds-checked
only against the root catalog's length, regardless of any `stop` bounds. -/
theorem getitem_int_delegation {V : Type} (v : BaseSeq V) (i : Int) :
    itemsGetInt v i = catItemByIndex v.rootEntries (i + v.accStart) ∧
    keysGetInt v i = (catItemByIndex v.rootEntries (i + v.accStart)).map Prod.fst ∧
    valuesGetInt v i = (catItemByIndex v.rootEntries (i + v.accStart)).map Prod.snd := by
  have hmain : ∀ (w : BaseSeq V) (j : Int),
      BaseSeq.itemByIndex w j = catItemByIndex w.rootEntries (j + w.accStart) := by
    intro w
    induction w with
    | base c ws wt => intro j; rfl
    | nest anc ws wt ih =>
      intro j
      simp only [BaseSeq.itemByIndex, BaseSeq.rootEntries, BaseSeq.accStart]
      rw [ih (j + ws)]
      congr 1
      push_cast
      ring
  exact ⟨hmain v i, by rw [keysGetInt, hmain v i], by rw [valuesGetInt, hmain v i]⟩

/-- C4: under the dict invariant (unique keys), `full_text_search` returns a
catalog of the same kind whose entries are exactly the input's own (key, value)
pairs, in input order, whose metadata word collection (lower-cased,
whitespace-split strings gathered by `walk_string_values`) meets the
lower-cased, whitespace-split query words, and whose metadata is reset to
empty.  The kept pairs are the input's entries themselves — as close to
"reused by reference" as a value-level embedding can state. -/
theorem full_text_search_spec {V : Type} (md : V → List (String × MetaVal)) (qtext : String)
    (c : Catalog V) (h : (c.entries.map Prod.fst).Nodup) :
    (full_text_search md qtext c).entries =
      c.entries.filter (fun e => matchesQuery (pyLowerWords qtext) (md e.2)) ∧
    (full_text_search md qtext c).metadata = [] := by
  refine ⟨?_, rfl⟩
  simp only [full_text_search]
  rw [pyItems_eq_entries c h,
    foldl_dictInsert_filter (fun e => matchesQuery (pyLowerWords qtext) (md e.2)) c.entries []
      (by simpa using h)]
  simp

/-- Witness for `full_text_search_spec` on a two-entry catalog and the query
"apple". -/
theorem full_text_search_spec_witness :
    (exMetaCat.entries.map Prod.fst).Nodup ∧
    ((full_text_search (fun m => m) "apple" exMetaCat).entries =
      exMetaCat.entries.filter (fun e => matchesQuery (pyLowerWords "apple") e.2) ∧
     (full_text_search (fun m => m) "apple" exMetaCat).metadata = []) :=
  ⟨by decide, full_text_search_spec (fun m => m) "apple" exMetaCat (by decide)⟩

/-- C10: a query whose text is empty or all whitespace has an empty word set,
so no entry is kept — including entries whose metadata has no string leaves —
and the returned collection has no entries. -/
theorem full_text_search_empty_query {V : Type} (md : V → List (String × MetaVal))
    (qtext : String) (c : Catalog V) (h : qtext.data.all Char.isWhitespace = true) :
    (full_text_search md qtext c).entries = [] := by
  have hq : pyLowerWords qtext = [] := pyLowerWords_whitespace qtext h
  have hfold : ∀ (l acc : List (String × V)),
      l.foldl (fun m e => if matchesQuery [] (md e.2) then dictInsert m e.1 e.2 else m) acc
        = acc := by
    intro l
    induction l with
    | nil => intro acc; rfl
    | cons a t ih =>
      intro acc
      rw [List.foldl_cons, if_neg (by simp [matchesQuery_nil])]
      exact ih acc
  simp only [full_text_search, hq]
  exact hfold c.pyItems []

/-- Witness for `full_text_search_empty_query`: an all-whitespace query over a
catalog whose value's metadata has no string leaves. -/
theorem full_text_search_empty_query_witness :
    (" ".data.all Char.isWhitespace = true) ∧
    (full_text_search (fun _ => ([] : List (String × MetaVal))) " " exNoStrings).entries = [] :=
  ⟨by decide,
    full_text_search_empty_query (fun _ => ([] : List (String × MetaVal))) " " exNoStrings
      (by decide)⟩

/-- Clamping the length through two windows in sequence (with the built-in
`len()` negativity check at each step) equals clamping once through the
composed window. -/
theorem lenB_compose_step (L p s : Nat) (q t : Option Nat) :
    (match (if seqLenInt (L : Int) p q < 0 then (Except.error PyErr.valueError : Except PyErr Nat)
            else Except.ok (seqLenInt (L : Int) p q).toNat) with
     | Except.error e => Except.error e
     | Except.ok al =>
       if seqLenInt (al : Int) s t < 0 then Except.error PyErr.valueError
       else Except.ok (seqLenInt (al : Int) s t).toNat) =
    (if seqLenInt (L : Int) (_compose_intervals_nn p q s t).1 (_compose_intervals_nn p q s t).2 < 0
     then Except.error PyErr.valueError
     else Except.ok
       (seqLenInt (L : Int) (_compose_intervals_nn p q s t).1 (_compose_intervals_nn p q s t).2).toNat) := by
  by_cases h1 : seqLenInt (L : Int) p q < 0
  · rw [if_pos h1]
    rw [if_pos (by
      rcases q with _ | q <;> rcases t with _ | t <;>
        simp only [seqLenInt, _compose_intervals_nn, Nat.cast_min] at h1 ⊢ <;>
        ((try split_ifs at h1 ⊢) <;> omega))]
  · rw [if_neg h1]
    rcases q with _ | q <;> rcases t with _ | t <;>
      simp only [seqLenInt, _compose_intervals_nn, Nat.cast_min] at h1 ⊢ <;>
      split_ifs <;>
      first
        | rfl
        | (exfalso; omega)
        | (simp only [Except.ok.injEq]; omega)

/-- C9: the wrapping slice implementation (a new view with ancestor `v` and
window `(s, t)`) and the spec's allowed eager-composition implementation
(`composedSlice`: rebind to `v`'s ancestor with the composed window) are
observably identical: equal `len()` (including the failure case), equal result
or failure at every integer index for all three view kinds, and element-for-
element equal iteration for all three view kinds. -/
theorem wrap_vs_compose_equiv {V : Type} (v : BaseSeq V) (s : Nat) (t : Option Nat) :
    BaseSeq.lenB (BaseSeq.nest v s t) = BaseSeq.lenB (composedSlice v s t) ∧
    (∀ i : Int,
      itemsGetInt (BaseSeq.nest v s t) i = itemsGetInt (composedSlice v s t) i ∧
      keysGetInt (BaseSeq.nest v s t) i = keysGetInt (composedSlice v s t) i ∧
      valuesGetInt (BaseSeq.nest v s t) i = valuesGetInt (composedSlice v s t) i) ∧
    BaseSeq.iterItems (BaseSeq.nest v s t) = BaseSeq.iterItems (composedSlice v s t) ∧
    BaseSeq.iterKeys (BaseSeq.nest v s t) = BaseSeq.iterKeys (composedSlice v s t) ∧
    BaseSeq.iterValues (BaseSeq.nest v s t) = BaseSeq.iterValues (composedSlice v s t) := by
  have hidx : ∀ i : Int,
      BaseSeq.itemByIndex (BaseSeq.nest v s t) i
        = BaseSeq.itemByIndex (composedSlice v s t) i := by
    intro i
    cases v with
    | base c p q =>
      simp only [BaseSeq.itemByIndex, composedSlice, _compose_intervals_nn]
      congr 1
      push_cast
      ring
    | nest anc p q =>
      simp only [BaseSeq.itemByIndex, composedSlice, _compose_intervals_nn]
      congr 1
      push_cast
      ring
  have hlen : BaseSeq.lenB (BaseSeq.nest v s t) = BaseSeq.lenB (composedSlice v s t) := by
    cases v with
    | base c p q =>
      simp only [BaseSeq.lenB, composedSlice]
      exact lenB_compose_step c.entries.length p s q t
    | nest anc p q =>
      simp only [BaseSeq.lenB, composedSlice]
      cases hA : anc.lenB with
      | error e => rfl
      | ok al => exact lenB_compose_step al p s q t
  have hitems : BaseSeq.iterItems (BaseSeq.nest v s t)
      = BaseSeq.iterItems (composedSlice v s t) := by
    cases v <;> rfl
  have hkeys : BaseSeq.iterKeys (BaseSeq.nest v s t)
      = BaseSeq.iterKeys (composedSlice v s t) := by
    cases v <;> rfl
  refine ⟨hlen, fun i => ⟨?_, ?_, ?_⟩, hitems, hkeys, ?_⟩
  · rw [itemsGetInt, itemsGetInt, hidx i]
  · rw [keysGetInt, keysGetInt, hidx i]
  · rw [valuesGetInt, valuesGetInt, hidx i]
  · rw [BaseSeq.iterValues, BaseSeq.iterValues, hitems]
